import Mathlib

/-!
Verification development for the Menu Master browser client
(`frontend/auth.js` = part_002, `frontend/app.js` = part_001,
`frontend/menu.js` = part_003).

The JavaScript source is shallowly embedded: JSON values become the `Json`
inductive, the browser's `atob`/`decodeURIComponent`/`JSON.parse` pipeline
used by `parseJwt` becomes an executable byte-level decoder, and the
stateful page controllers become explicit state-passing functions.
JavaScript dynamic-typing behaviour that the code relies on (falsiness,
`ToNumber` coercion in `payload.exp * 1000`, property access on `null`
throwing) is modelled explicitly.

Model restrictions, noted where they matter: JSON numbers are modelled as
integers (no fraction/exponent literals), `ToNumber` coercion of arrays and
objects is modelled as NaN, lone-surrogate escapes are rejected by the
string parser, and lower-casing is ASCII (the claims only exercise these
fragments).
-/

namespace MenuMaster

/-- JSON values, as produced by `JSON.parse`.  Object member lists keep
source order; duplicate keys are resolved at lookup time (last wins, as in
JavaScript). -/
inductive Json where
  | null : Json
  | bool (b : Bool) : Json
  | num (n : Int) : Json
  | str (s : String) : Json
  | arr (xs : List Json) : Json
  | obj (kvs : List (String × Json)) : Json

/-- JavaScript truthiness of a JSON value (`NaN` cannot appear in parsed
JSON, so numbers are falsy exactly when zero). -/
def jsTruthy : Json → Bool
  | .null => false
  | .bool b => b
  | .num n => n != 0
  | .str s => s != ""
  | .arr _ => true
  | .obj _ => true

/-- Digits of a char list read most-significant first, with an accumulator. -/
def digitsAcc : List Char → Nat → Option Nat
  | [], acc => some acc
  | c :: rest, acc =>
    if c.isDigit then digitsAcc rest (acc * 10 + (c.toNat - 48)) else none

/-- JavaScript `ToNumber` on a string (the fragment the model supports:
optional sign and decimal digits after trimming; the empty string is 0;
anything else, including fraction/exponent/hex literals, is NaN = `none`). -/
def strToNumber (s : String) : Option Int :=
  match s.toList.dropWhile (·.isWhitespace) |>.reverse.dropWhile (·.isWhitespace) |>.reverse with
  | [] => some 0
  | '-' :: rest =>
    match rest, digitsAcc rest 0 with
    | _ :: _, some n => some (-(n : Int))
    | _, _ => none
  | '+' :: rest =>
    match rest, digitsAcc rest 0 with
    | _ :: _, some n => some (n : Int)
    | _, _ => none
  | l =>
    match digitsAcc l 0 with
    | some n => some (n : Int)
    | none => none

/-- JavaScript `ToNumber` coercion of a JSON value; `none` models NaN.
Arrays and objects are modelled as NaN (JavaScript's `ToPrimitive` can
coerce some arrays to numbers; no claim exercises that corner). -/
def jsToNumber : Json → Option Int
  | .null => some 0
  | .bool b => some (if b then 1 else 0)
  | .num n => some n
  | .str s => strToNumber s
  | .arr _ => none
  | .obj _ => none

/-- String rendering used when a JSON value reaches `new Error(v)`.
Array rendering (comma-joined elements) is approximated by the empty
string, which is exact for `[]`; no claim exercises non-empty arrays
here. -/
def jsToString : Json → String
  | .null => "null"
  | .bool b => if b then "true" else "false"
  | .num n => toString n
  | .str s => s
  | .arr _ => ""
  | .obj _ => "[object Object]"

/-- Last-occurrence lookup in an object member list: `JSON.parse` keeps the
last duplicate key, matching JavaScript property semantics. -/
def jsonLookup (kvs : List (String × Json)) (key : String) : Option Json :=
  match kvs with
  | [] => none
  | (k, v) :: rest =>
    match jsonLookup rest key with
    | some w => some w
    | none => if k = key then some v else none

/-- JavaScript property read `v.key`: throws (`.error`) on `null`,
yields `undefined` (`none`) on non-objects and missing keys. -/
def jsGetField (v : Json) (key : String) : Except Unit (Option Json) :=
  match v with
  | .null => .error ()
  | .obj kvs => .ok (jsonLookup kvs key)
  | _ => .ok none

/-! ## Base64 (`atob` and the token's URL-safe alphabet) -/

/-- The standard base64 alphabet, indexed by sextet value. -/
def b64Alphabet : List Char :=
  "ABCDEFGHIJKLMNOPQRSTUVWXYZabcdefghijklmnopqrstuvwxyz0123456789+/".toList

/-- The URL-safe base64 alphabet used in JWT segments. -/
def b64UrlAlphabet : List Char :=
  "ABCDEFGHIJKLMNOPQRSTUVWXYZabcdefghijklmnopqrstuvwxyz0123456789-_".toList

/-- Sextet value of a standard-alphabet character, `none` outside the
alphabet. -/
def b64CharValue (c : Char) : Option Nat :=
  b64Alphabet.indexOf? c

/-- One character of the two global `replace` calls of `parseJwt`:
dash to plus, underscore to slash. -/
def urlToStdChar (c : Char) : Char :=
  if c = '-' then '+' else if c = '_' then '/' else c

/-- The two global `replace` calls of `parseJwt`: translate the URL-safe
alphabet (dash, underscore) to the standard one (plus, slash). -/
def urlToStd (cs : List Char) : List Char :=
  cs.map urlToStdChar

/-- ASCII whitespace stripped by the forgiving-base64 decode of `atob`. -/
def isB64Ws (c : Char) : Bool :=
  c = ' ' || c = '\t' || c = '\n' || c = '\x0c' || c = '\r'

/-- Remove one or two trailing `=` characters (forgiving-base64 step). -/
def stripPad (cs : List Char) : List Char :=
  match cs.reverse with
  | c1 :: c2 :: r =>
    if c1 = '=' then (if c2 = '=' then r.reverse else (c2 :: r).reverse) else cs
  | [c1] => if c1 = '=' then [] else cs
  | [] => cs

/-- Pack a list of sextets into bytes, dropping the final partial bits,
exactly as forgiving-base64 decode does.  The single-leftover case is
unreachable after the `length % 4 = 1` check but is totalised to `[]`. -/
def sextetsToBytes : List Nat → List Nat
  | a :: b :: c :: d :: rest =>
    (a * 4 + b / 16) :: (b % 16 * 16 + c / 4) :: (c % 4 * 64 + d) :: sextetsToBytes rest
  | [a, b] => [a * 4 + b / 16]
  | [a, b, c] => [a * 4 + b / 16, b % 16 * 16 + c / 4]
  | _ => []

/-- Map every character to its sextet value, failing on the first
non-alphabet character. -/
def sextetsOf : List Char → Option (List Nat)
  | [] => some []
  | c :: rest =>
    match b64CharValue c, sextetsOf rest with
    | some v, some vs => some (v :: vs)
    | _, _ => none

/-- The browser's `atob`: WHATWG forgiving-base64 decode to a byte list. -/
def atobModel (cs : List Char) : Option (List Nat) :=
  let cs1 := cs.filter fun c => !isB64Ws c
  let cs2 := if cs1.length % 4 = 0 then stripPad cs1 else cs1
  if cs2.length % 4 = 1 then none
  else (sextetsOf cs2).map sextetsToBytes

/-- Unpadded base64url encoding of a byte list (how a JWT middle segment
is produced by the backend). -/
def b64UrlEncode : List Nat → List Char
  | a :: b :: c :: rest =>
    b64UrlAlphabet.getD (a / 4) 'A' :: b64UrlAlphabet.getD (a % 4 * 16 + b / 16) 'A' ::
    b64UrlAlphabet.getD (b % 16 * 4 + c / 64) 'A' :: b64UrlAlphabet.getD (c % 64) 'A' ::
    b64UrlEncode rest
  | [a, b] =>
    [b64UrlAlphabet.getD (a / 4) 'A', b64UrlAlphabet.getD (a % 4 * 16 + b / 16) 'A',
     b64UrlAlphabet.getD (b % 16 * 4) 'A']
  | [a] =>
    [b64UrlAlphabet.getD (a / 4) 'A', b64UrlAlphabet.getD (a % 4 * 16) 'A']
  | [] => []

/-! ## UTF-8 (`decodeURIComponent` over percent-escaped bytes) -/

/-- UTF-8 encoding of a single scalar value (a Lean `Char`). -/
def utf8EncodeChar (c : Char) : List Nat :=
  let n := c.toNat
  if n < 0x80 then [n]
  else if n < 0x800 then [0xC0 + n / 64, 0x80 + n % 64]
  else if n < 0x10000 then [0xE0 + n / 4096, 0x80 + n / 64 % 64, 0x80 + n % 64]
  else [0xF0 + n / 262144, 0x80 + n / 4096 % 64, 0x80 + n / 64 % 64, 0x80 + n % 64]

/-- UTF-8 encoding of a character list. -/
def utf8Encode : List Char → List Nat
  | [] => []
  | c :: cs => utf8EncodeChar c ++ utf8Encode cs

/-- Is `b` a UTF-8 continuation byte? -/
def isCont (b : Nat) : Bool := 0x80 ≤ b && b ≤ 0xBF

/-- Two-byte UTF-8 form: one continuation byte after leading `b1`. -/
def utf8Cont1 (b1 : Nat) : List Nat → Option (Nat × List Nat)
  | b2 :: rest2 =>
    if isCont b2 then some ((b1 - 0xC0) * 64 + (b2 - 0x80), rest2) else none
  | _ => none

/-- Three-byte UTF-8 form: two continuation bytes, rejecting overlong
forms (`E0` leading) and surrogates (`ED` leading). -/
def utf8Cont2 (b1 : Nat) : List Nat → Option (Nat × List Nat)
  | b2 :: b3 :: rest2 =>
    if isCont b2 ∧ isCont b3 ∧ (b1 = 0xE0 → 0xA0 ≤ b2) ∧ (b1 = 0xED → b2 ≤ 0x9F) then
      some ((b1 - 0xE0) * 4096 + (b2 - 0x80) * 64 + (b3 - 0x80), rest2)
    else none
  | _ => none

/-- Four-byte UTF-8 form: three continuation bytes, rejecting overlong
forms (`F0` leading) and values above `0x10FFFF` (`F4` leading). -/
def utf8Cont3 (b1 : Nat) : List Nat → Option (Nat × List Nat)
  | b2 :: b3 :: b4 :: rest2 =>
    if isCont b2 ∧ isCont b3 ∧ isCont b4 ∧ (b1 = 0xF0 → 0x90 ≤ b2) ∧ (b1 = 0xF4 → b2 ≤ 0x8F) then
      some ((b1 - 0xF0) * 262144 + (b2 - 0x80) * 4096 + (b3 - 0x80) * 64 + (b4 - 0x80), rest2)
    else none
  | _ => none

/-- Decode one UTF-8 scalar value from the head of the byte list:
`some (n, rest)` on success, `none` on any malformed head (bad leading
byte, missing or bad continuation, overlong form, surrogate, out of
range). -/
def utf8Step : List Nat → Option (Nat × List Nat)
  | [] => none
  | b1 :: rest =>
    if b1 < 0x80 then some (b1, rest)
    else if 0xC2 ≤ b1 ∧ b1 ≤ 0xDF then utf8Cont1 b1 rest
    else if 0xE0 ≤ b1 ∧ b1 ≤ 0xEF then utf8Cont2 b1 rest
    else if 0xF0 ≤ b1 ∧ b1 ≤ 0xF4 then utf8Cont3 b1 rest
    else none

/-- Fuelled driver for the strict UTF-8 decoder; each step consumes at
least one byte, so byte-list length is always enough fuel. -/
def utf8DecodeF : Nat → List Nat → Option (List Char)
  | _, [] => some []
  | 0, _ :: _ => none
  | f + 1, l =>
    match utf8Step l with
    | some (n, rest) => (utf8DecodeF f rest).map fun cs => Char.ofNat n :: cs
    | none => none

/-- Strict UTF-8 decoding, rejecting overlong forms, surrogates and
out-of-range values, as `decodeURIComponent` does on a fully
percent-escaped input. -/
def utf8Decode (bs : List Nat) : Option (List Char) :=
  utf8DecodeF bs.length bs

/-! ## JSON parsing (`JSON.parse`)

Restrictions of the model, stated once: number literals are integers
(optional minus sign, no fraction/exponent), and a `\u` escape encoding a
lone surrogate is rejected (JavaScript strings can hold lone surrogates;
Lean strings cannot).  The claims only exercise integer numbers and
well-formed text. -/

/-- JSON insignificant whitespace. -/
def skipWs : List Char → List Char
  | c :: r => if c = ' ' || c = '\t' || c = '\n' || c = '\r' then skipWs r else c :: r
  | [] => []

/-- Value of one hex digit. -/
def hexVal (c : Char) : Option Nat :=
  if '0' ≤ c && c ≤ '9' then some (c.toNat - 48)
  else if 'a' ≤ c && c ≤ 'f' then some (c.toNat - 87)
  else if 'A' ≤ c && c ≤ 'F' then some (c.toNat - 55)
  else none

/-- The single-character escapes of JSON string literals. -/
def escSimple (e : Char) : Option Char :=
  if e = '"' then some '"'
  else if e = '\\' then some '\\'
  else if e = '/' then some '/'
  else if e = 'b' then some '\x08'
  else if e = 'f' then some '\x0c'
  else if e = 'n' then some '\n'
  else if e = 'r' then some '\x0d'
  else if e = 't' then some '\t'
  else none

/-- One step of the JSON string-literal scanner. -/
inductive StrStep where
  | done (rest : List Char) : StrStep
  | chr (c : Char) (rest : List Char) : StrStep
  | fail : StrStep

/-- Four hex digits as a code unit. -/
def hex4 (g1 g2 g3 g4 : Char) : Option Nat :=
  match hexVal g1, hexVal g2, hexVal g3, hexVal g4 with
  | some v1, some v2, some v3, some v4 => some (v1 * 4096 + v2 * 256 + v3 * 16 + v4)
  | _, _, _, _ => none

/-- The low half of a surrogate pair, given the decoded high unit `n` and
the decoded candidate low unit. -/
def strStepLow2 (n : Nat) : Option Nat → List Char → StrStep
  | some m, r3 =>
    if 0xDC00 ≤ m ∧ m ≤ 0xDFFF then
      .chr (Char.ofNat ((n - 0xD800) * 1024 + (m - 0xDC00) + 0x10000)) r3
    else .fail
  | none, _ => .fail

/-- After a high surrogate `\uXXXX`, an immediately following `\uYYYY`
low surrogate is required. -/
def strStepLow (n : Nat) : List Char → StrStep
  | e2 :: u2 :: g1 :: g2 :: g3 :: g4 :: r3 =>
    if e2 = '\\' ∧ u2 = 'u' then strStepLow2 n (hex4 g1 g2 g3 g4) r3 else .fail
  | _ => .fail

/-- Dispatch on a decoded `\uXXXX` unit: high surrogate (pair required),
lone low surrogate (rejected — JavaScript accepts it, but Lean strings
hold scalar values only), or an ordinary unit. -/
def strStepHex : Option Nat → List Char → StrStep
  | none, _ => .fail
  | some n, r2 =>
    if 0xD800 ≤ n ∧ n ≤ 0xDBFF then strStepLow n r2
    else if 0xDC00 ≤ n ∧ n ≤ 0xDFFF then .fail
    else .chr (Char.ofNat n) r2

/-- A `\u` escape: four hex digits, then surrogate dispatch. -/
def strStepU : List Char → StrStep
  | h1 :: h2 :: h3 :: h4 :: r2 => strStepHex (hex4 h1 h2 h3 h4) r2
  | _ => .fail

/-- A single-character escape, from the `escSimple` table. -/
def strStepEsc2 : Option Char → List Char → StrStep
  | some d, r1 => .chr d r1
  | none, _ => .fail

/-- After the backslash of an escape. -/
def strStepEsc : List Char → StrStep
  | [] => .fail
  | e :: r1 => if e = 'u' then strStepU r1 else strStepEsc2 (escSimple e) r1

/-- Scan one item of a JSON string-literal body: the closing quote, a
plain character, or one escape. -/
def strStep : List Char → StrStep
  | [] => .fail
  | c :: r =>
    if c = '"' then .done r
    else if c = '\\' then strStepEsc r
    else if c.toNat < 0x20 then .fail
    else .chr c r

/-- Fuelled driver for the string-literal body; every step consumes at
least one character, so input length plus one is always enough fuel. -/
def parseStringF : Nat → List Char → Option (List Char × List Char)
  | 0, _ => none
  | f + 1, s =>
    match strStep s with
    | .done rest => some ([], rest)
    | .chr c rest => (parseStringF f rest).map fun p => (c :: p.1, p.2)
    | .fail => none

/-- Body of a JSON string literal, after the opening quote; returns the
decoded content and the remainder after the closing quote. -/
def parseStringBody (s : List Char) : Option (List Char × List Char) :=
  parseStringF (s.length + 1) s

/-- An unsigned JSON integer literal: digits, with the JSON leading-zero
restriction; returns the value and the remainder. -/
def parseNat : List Char → Option (Nat × List Char)
  | '0' :: r =>
    match r with
    | c :: _ => if c.isDigit then none else some (0, r)
    | [] => some (0, [])
  | c :: r =>
    if c.isDigit then some (parseNatTail r (c.toNat - 48))
    else none
  | [] => none
where
  parseNatTail : List Char → Nat → Nat × List Char
    | c :: r, acc => if c.isDigit then parseNatTail r (acc * 10 + (c.toNat - 48)) else (acc, c :: r)
    | [], acc => (acc, [])

mutual

/-- One JSON value at the head of the input (whitespace already skipped);
`fuel` bounds nesting depth and is decremented on each nested value. -/
def parseValue : Nat → List Char → Option (Json × List Char)
  | 0, _ => none
  | fuel + 1, s =>
    match s with
    | 'n' :: 'u' :: 'l' :: 'l' :: r => some (.null, r)
    | 't' :: 'r' :: 'u' :: 'e' :: r => some (.bool true, r)
    | 'f' :: 'a' :: 'l' :: 's' :: 'e' :: r => some (.bool false, r)
    | '"' :: r => (parseStringBody r).map fun p => (.str (String.mk p.1), p.2)
    | '-' :: r => (parseNat r).map fun p => (.num (-(p.1 : Int)), p.2)
    | '[' :: r =>
      match skipWs r with
      | ']' :: r2 => some (.arr [], r2)
      | r1 =>
        match parseElems fuel r1 with
        | some (xs, r2) => some (.arr xs, r2)
        | none => none
    | '\x7b' :: r =>
      match skipWs r with
      | '\x7d' :: r2 => some (.obj [], r2)
      | r1 =>
        match parseMembers fuel r1 with
        | some (kvs, r2) => some (.obj kvs, r2)
        | none => none
    | c :: r =>
      if c.isDigit then (parseNat (c :: r)).map fun p => (.num (p.1 : Int), p.2)
      else none
    | [] => none

/-- One or more comma-separated array elements, ending at `]`. -/
def parseElems : Nat → List Char → Option (List Json × List Char)
  | 0, _ => none
  | fuel + 1, s =>
    match parseValue fuel s with
    | some (v, r) =>
      match skipWs r with
      | ',' :: r2 =>
        match parseElems fuel (skipWs r2) with
        | some (xs, r3) => some (v :: xs, r3)
        | none => none
      | ']' :: r2 => some ([v], r2)
      | _ => none
    | none => none

/-- One or more comma-separated object members, ending at the closing
brace. -/
def parseMembers : Nat → List Char → Option (List (String × Json) × List Char)
  | 0, _ => none
  | fuel + 1, s =>
    match s with
    | '"' :: r =>
      match parseStringBody r with
      | some (key, r2) =>
        match skipWs r2 with
        | ':' :: r3 =>
          match parseValue fuel (skipWs r3) with
          | some (v, r4) =>
            match skipWs r4 with
            | ',' :: r5 =>
              match parseMembers fuel (skipWs r5) with
              | some (kvs, r6) => some ((String.mk key, v) :: kvs, r6)
              | none => none
            | '\x7d' :: r5 => some ([(String.mk key, v)], r5)
            | _ => none
          | none => none
        | _ => none
      | none => none
    | _ => none

end

/-- `JSON.parse`: a single value with optional surrounding whitespace. -/
def parseJson (s : List Char) : Option Json :=
  match parseValue (s.length + 1) (skipWs s) with
  | some (v, r) =>
    match skipWs r with
    | [] => some v
    | _ => none
  | none => none

/-! ## Session inspection (`auth.js`: `parseJwt`, `isAuthenticated`,
`getUserFromToken`) -/

/-- The semantics of `token.split` on a dot: every (possibly empty)
dot-separated segment, in order. -/
def splitOnDot : List Char → List (List Char)
  | [] => [[]]
  | c :: rest =>
    match splitOnDot rest with
    | [] => [[c]]
    | seg :: segs => if c = '.' then [] :: seg :: segs else (c :: seg) :: segs

/-- `parseJwt` from `auth.js`: take the second dot-separated segment,
translate the URL-safe alphabet, `atob`, percent-escape every byte and
`decodeURIComponent` (jointly: strict UTF-8 decode), then `JSON.parse`.
Every JavaScript exception on this path is modelled as `none`; the callers
catch them all.  A token without a dot makes the indexing yield
`undefined` and the subsequent `replace` throw, hence the two-segment
minimum. -/
def parseJwt (token : String) : Option Json :=
  match splitOnDot token.toList with
  | _ :: seg1 :: _ =>
    match atobModel (urlToStd seg1) with
    | some bytes =>
      match utf8Decode bytes with
      | some chars => parseJson chars
      | none => none
    | none => none
  | _ => none

/-- The `exp` claim of a decoded payload coerced to a number:
`payload.exp * 1000` in JavaScript.  `none` covers the three ways the
comparison can fail to fire: property access throwing (`null` payload),
`exp` absent (`undefined`, giving NaN), and a value whose `ToNumber`
coercion is NaN. -/
def expValue (payload : Json) : Option Int :=
  match jsGetField payload "exp" with
  | .error _ => none
  | .ok none => none
  | .ok (some v) => jsToNumber v

/-- `isAuthenticated` from `auth.js`, with the stored credential and the
current `Date.now()` (milliseconds) made explicit.  `!token` is JavaScript
falsiness, so an empty stored string also fails. -/
def isAuthenticated (store : Option String) (now : Int) : Bool :=
  match store with
  | none => false
  | some token =>
    if token = "" then false
    else
      match parseJwt token with
      | none => false
      | some payload =>
        match expValue payload with
        | none => false
        | some e => now < e * 1000

/-- The derived session view `{ user_id, email, is_onboarded }`.  The JWT
claim values flow through untyped, so the fields keep their JSON values;
`is_onboarded` holds the result of `payload.is_onboarded || false`. -/
structure Session where
  user_id : Option Json
  email : Option Json
  is_onboarded : Json

/-- `getUserFromToken` from `auth.js`.  A `null` payload makes the
property access throw (caught, `null` returned); `is_onboarded` gets the
JavaScript `|| false` default, which keeps any truthy value and replaces
every falsy one with `false`. -/
def getUserFromToken (store : Option String) : Option Session :=
  match store with
  | none => none
  | some token =>
    if token = "" then none
    else
      match parseJwt token with
      | none => none
      | some payload =>
        match jsGetField payload "sub", jsGetField payload "email",
              jsGetField payload "is_onboarded" with
        | .ok sub, .ok email, .ok ib =>
          some
            { user_id := sub
              email := email
              is_onboarded :=
                match ib with
                | some v => if jsTruthy v then v else .bool false
                | none => .bool false }
        | _, _, _ => none

/-! ## Navigation guard (`redirectBasedOnStatus`, `checkAuthAndRedirect`) -/

/-- `redirectBasedOnStatus` from `auth.js`, as the pure decision it
embodies: the current path in, the assigned `window.location.href` out
(`none` = no redirect). -/
def redirectBasedOnStatus (user : Option Session) (currentPath : String) : Option String :=
  match user with
  | none =>
    if currentPath ≠ "/login.html" then some "/login.html" else none
  | some u =>
    if ¬ jsTruthy u.is_onboarded then
      if currentPath ≠ "/" ∧ currentPath ≠ "/index.html" then some "/" else none
    else
      if currentPath = "/login.html" ∨ currentPath = "/" ∨ currentPath = "/index.html" then
        some "/menu.html"
      else none

/-- `checkAuthAndRedirect` from `auth.js`: decode the stored credential
(without any expiry check) and apply the guard. -/
def checkAuthAndRedirect (store : Option String) (currentPath : String) : Option String :=
  redirectBasedOnStatus (getUserFromToken store) currentPath

/-! ## Auth gateway (`signup`, `login`, `googleAuth`, `getCurrentUser`) -/

/-- The part of a `fetch` response these functions inspect: `ok`,
`status`, and the JSON body produced by `response.json()`. -/
structure HttpResponse where
  ok : Bool
  status : Nat
  body : Json

/-- A raised JavaScript error: `new Error(msg)`, or the `TypeError` from
reading a property of `null`. -/
inductive JsError where
  | error (msg : String)
  | typeError

/-- The failure path shared by `signup`, `login` and `googleAuth`:
`new Error(error.detail || fallback)`.  A falsy `detail` (absent, empty
string, `false`, `0`, `null`) selects the fallback; a truthy one is
stringified into the message; a `null` body makes the property read
throw. -/
def failureMessage (body : Json) (fallback : String) : JsError :=
  match jsGetField body "detail" with
  | .error _ => .typeError
  | .ok none => .error fallback
  | .ok (some v) => .error (if jsTruthy v then jsToString v else fallback)

/-- `signup` from `auth.js`, as a function of the backend response. -/
def signup (resp : HttpResponse) : Except JsError Json :=
  if resp.ok then .ok resp.body else .error (failureMessage resp.body "Signup failed")

/-- `login` from `auth.js`. -/
def login (resp : HttpResponse) : Except JsError Json :=
  if resp.ok then .ok resp.body else .error (failureMessage resp.body "Login failed")

/-- `googleAuth` from `auth.js`. -/
def googleAuth (resp : HttpResponse) : Except JsError Json :=
  if resp.ok then .ok resp.body else .error (failureMessage resp.body "Google authentication failed")

/-- `getCurrentUser` from `auth.js`: returns the user object (or `null`)
together with the credential store after the call (a 401 clears it). -/
def getCurrentUser (store : Option String) (resp : HttpResponse) :
    Except JsError (Option Json × Option String) :=
  match store with
  | none => .ok (none, none)
  | some token =>
    if token = "" then .ok (none, some token)
    else if resp.ok then .ok (some resp.body, some token)
    else if resp.status = 401 then .ok (none, none)
    else .error (.error "Failed to get user info")

/-! ## Onboarding conversation controller (`app.js`) -/

/-- The page state touched by `handleSendMessage` and `finalizeProfile`:
the session id, the visible transcript (text, role), the message input
box, the loading flag, the stored credential, and the finalized-profile
modal. -/
structure ChatState where
  sessionId : Option String
  transcript : List (String × String)
  inputValue : String
  loading : Bool
  token : Option String
  profile : Option Json
  profileShown : Bool

/-- JavaScript falsiness of a nullable string (`!text`, `!sessionId`). -/
def jsFalsyStr : Option String → Bool
  | none => true
  | some s => s = ""

/-- The `trim` applied to the message input (ASCII whitespace; JavaScript
also trims some Unicode spaces, which no claim exercises). -/
def jsTrim (s : String) : String :=
  String.mk (((s.toList.dropWhile Char.isWhitespace).reverse.dropWhile Char.isWhitespace).reverse)

/-- `addMessage`: append a bubble to the chat container. -/
def addMessage (st : ChatState) (text role : String) : ChatState :=
  { st with transcript := st.transcript ++ [(text, role)] }

/-- How a possibly-`undefined` JSON value renders inside the bubble's
template literal. -/
def renderMsg : Option Json → String
  | none => "undefined"
  | some v => jsToString v

/-- Outcome of one network exchange: rejection (fetch or
`response.json()` failing), or a parsed JSON body. -/
inductive NetOutcome where
  | netError
  | ok (body : Json)

/-- `finalizeProfile` from `app.js`: announce, POST, and on a truthy
`success` store the new credential (when `access_token` is truthy) and
show the profile modal; any throw on the way appends the failure
bubble. -/
def finalizeProfile (st : ChatState) (fin : NetOutcome) : ChatState :=
  let st1 := addMessage st "Creating your profile..." "assistant"
  match fin with
  | .netError => addMessage st1 "Something went wrong creating your profile." "assistant"
  | .ok body =>
    match jsGetField body "success" with
    | .error _ => addMessage st1 "Something went wrong creating your profile." "assistant"
    | .ok sv =>
      if (match sv with | some v => jsTruthy v | none => false) then
        let prof := match jsGetField body "profile" with | .ok p => p | .error _ => none
        let tok := match jsGetField body "access_token" with | .ok t => t | .error _ => none
        { st1 with
          profile := prof
          profileShown := true
          token :=
            match tok with
            | some tv => if jsTruthy tv then some (jsToString tv) else st1.token
            | none => st1.token }
      else st1

/-- `handleSendMessage` from `app.js`, with the two network outcomes (the
message POST and, if completion is signalled, the finalize POST) passed
explicitly.  A `null` message body makes `data.message` throw, which the
shared catch turns into the inline error bubble. -/
def handleSendMessage (st : ChatState) (net : NetOutcome) (fin : NetOutcome) : ChatState :=
  let text := jsTrim st.inputValue
  if text = "" ∨ jsFalsyStr st.sessionId then st
  else
    let st1 :=
      { st with
        transcript := st.transcript ++ [(text, "user")]
        inputValue := ""
        loading := true }
    let st2 :=
      match net with
      | .netError => addMessage st1 "Error: Could not send message. Please try again." "assistant"
      | .ok body =>
        match jsGetField body "message", jsGetField body "is_complete" with
        | .ok msg, .ok compl =>
          let st3 := addMessage st1 (renderMsg msg) "assistant"
          if (match compl with | some v => jsTruthy v | none => false) then
            finalizeProfile st3 fin
          else st3
        | _, _ => addMessage st1 "Error: Could not send message. Please try again." "assistant"
    { st2 with loading := false }

/-! ## Menu viewer (`menu.js`: `processMenuData` and the search handler) -/

/-- A dish record from the weekly menu payload. -/
structure Dish where
  name : String
  description : String
  ingredients : List String
  preparation_steps : List String
deriving DecidableEq

/-- The three optional meal slots of one day. -/
structure DayMenu where
  breakfast : Option Dish
  lunch : Option Dish
  dinner : Option Dish
deriving DecidableEq

/-- The weekly menu object: one optional day entry per weekday key. -/
structure Menu where
  monday : Option DayMenu
  tuesday : Option DayMenu
  wednesday : Option DayMenu
  thursday : Option DayMenu
  friday : Option DayMenu
  saturday : Option DayMenu
  sunday : Option DayMenu
deriving DecidableEq

/-- One element of the flattened dish list pushed by `processMenuData`:
the day and meal-type keys plus the spread dish fields. -/
structure MenuEntry where
  day : String
  type : String
  dish : Dish
deriving DecidableEq

/-- The `days` array literal of `processMenuData`, paired with the day
slots it indexes. -/
def dayList (m : Menu) : List (String × Option DayMenu) :=
  [("monday", m.monday), ("tuesday", m.tuesday), ("wednesday", m.wednesday),
   ("thursday", m.thursday), ("friday", m.friday), ("saturday", m.saturday),
   ("sunday", m.sunday)]

/-- The inner meal-type array literal, paired with the slots it
indexes. -/
def mealList (dm : DayMenu) : List (String × Option Dish) :=
  [("breakfast", dm.breakfast), ("lunch", dm.lunch), ("dinner", dm.dinner)]

/-- The inner `forEach` of `processMenuData`: push an entry for each
present meal slot; a falsy daily menu contributes nothing. -/
def mealEntries (day : String) : Option DayMenu → List MenuEntry
  | none => []
  | some dm =>
    (mealList dm).foldl
      (fun acc p =>
        acc ++ (match p.2 with | some dish => [⟨day, p.1, dish⟩] | none => []))
      []

/-- `processMenuData` from `menu.js`: the flat `allDishes` list it
builds. -/
def processMenuData (m : Menu) : List MenuEntry :=
  (dayList m).foldl (fun acc p => acc ++ mealEntries p.1 p.2) []

/-- ASCII lower-casing of one character (`toLowerCase` restricted to the
ASCII range the claims exercise). -/
def asciiLower (c : Char) : Char :=
  if 'A' ≤ c ∧ c ≤ 'Z' then Char.ofNat (c.toNat + 32) else c

/-- Lower-case a character list. -/
def lowerList (cs : List Char) : List Char :=
  cs.map asciiLower

/-- `String.prototype.includes`: does `needle` occur contiguously inside
`hay`?  The empty needle always matches. -/
def containsSub : List Char → List Char → Bool
  | hay, needle =>
    if needle.isPrefixOf hay then true
    else
      match hay with
      | [] => false
      | _ :: t => containsSub t needle

/-- The per-dish predicate of the search input handler: the lower-cased
term occurs in the lower-cased name, description, or some ingredient. -/
def dishMatches (term : String) (e : MenuEntry) : Bool :=
  let t := lowerList term.toList
  containsSub (lowerList e.dish.name.toList) t ||
  containsSub (lowerList e.dish.description.toList) t ||
  e.dish.ingredients.any fun ing => containsSub (lowerList ing.toList) t

/-- The search input handler of `menu.js`: filter the flattened list by
`dishMatches` (the handler lower-cases the raw input value once;
`dishMatches` lower-cases it per field, which is the same since
lower-casing is idempotent). -/
def searchDishes (rawTerm : String) (dishes : List MenuEntry) : List MenuEntry :=
  dishes.filter (dishMatches rawTerm)

/-! ## Spec-side definitions and theorems -/

/-- The navigation policy exactly as the specification's table states it
(§4.3): row order absent / not-onboarded / onboarded, with the landing
pages written as path sets. -/
def redirectTargetSpec : Option Session → String → Option String
  | none, p => if p = "/login.html" then none else some "/login.html"
  | some u, p =>
    if jsTruthy u.is_onboarded then
      if p ∈ ["/login.html", "/", "/index.html"] then some "/menu.html" else none
    else
      if p ∈ ["/", "/index.html"] then none else some "/"

/-- C2: for every session state and every current path, the redirect
decision of `redirectBasedOnStatus` agrees with the specification's
policy table (`redirectTargetSpec`), including the no-redirect rows. -/
theorem redirect_matches_policy_table (u : Option Session) (p : String) :
    redirectBasedOnStatus u p = redirectTargetSpec u p := by
  cases u with
  | none =>
    by_cases h : p = "/login.html" <;>
      simp [redirectBasedOnStatus, redirectTargetSpec, h]
  | some s =>
    by_cases hb : jsTruthy s.is_onboarded <;>
      by_cases h1 : p = "/login.html" <;>
        by_cases h2 : p = "/" <;>
          by_cases h3 : p = "/index.html" <;>
            simp [redirectBasedOnStatus, redirectTargetSpec, hb, h1, h2, h3]

/-- C5: the navigation guard is idempotent — whenever it produces a
redirect target, running it again from that target (same session state)
produces no redirect. -/
theorem redirect_idempotent (u : Option Session) (p t : String)
    (h : redirectBasedOnStatus u p = some t) : redirectBasedOnStatus u t = none := by
  cases u with
  | none =>
    rw [redirectBasedOnStatus] at h
    split_ifs at h
    cases h
    simp [redirectBasedOnStatus]
  | some s =>
    rw [redirectBasedOnStatus] at h
    split_ifs at h <;> cases h <;> simp [redirectBasedOnStatus, *]

/-- C5 witness: the theorem applied at the absent session on the menu
page, whose redirect target is the login page. -/
theorem redirect_idempotent_witness :
    redirectBasedOnStatus none "/menu.html" = some "/login.html" ∧
    redirectBasedOnStatus none "/login.html" = none := by
  refine ⟨by decide, redirect_idempotent none "/menu.html" "/login.html" (by decide)⟩

/-- An expired but structurally valid token: payload
`exp = 1, sub = "u1", email = "a@b.com", is_onboarded = true`
(expiry one second after the epoch). -/
def expiredOnboardedToken : String :=
  "h.eyJleHAiOjEsInN1YiI6InUxIiwiZW1haWwiOiJhQGIuY29tIiwiaXNfb25ib2FyZGVkIjp0cnVlfQ.s"

/-- C3: the code contradicts the claim.  At `Date.now()` =
1760000000000 ms the stored token is expired (`isAuthenticated` is
`false`), yet `checkAuthAndRedirect` — which never consults the expiry —
leaves the user on the menu page, while with no credential at all it
redirects to the login page.  The expired credential is therefore *not*
treated identically to an absent one. -/
theorem checkAuthAndRedirect_expired_diverges_from_absent :
    isAuthenticated (some expiredOnboardedToken) 1760000000000 = false ∧
    checkAuthAndRedirect (some expiredOnboardedToken) "/menu.html" = none ∧
    checkAuthAndRedirect none "/menu.html" = some "/login.html" := by
  exact ⟨by rfl, by rfl, by rfl⟩

/-- Entries contributed by one (day, meal-type) slot: one entry when the
slot is present, none otherwise. -/
def slotEntry (day mt : String) : Option Dish → List MenuEntry
  | some d => [⟨day, mt, d⟩]
  | none => []

/-- The flattening exactly as the specification orders it: the seven
weekday keys Monday through Sunday, and within each day breakfast, lunch,
dinner, keeping only present slots. -/
def flattenSpec (m : Menu) : List MenuEntry :=
  slotEntry "monday" "breakfast" (m.monday.bind DayMenu.breakfast) ++
  slotEntry "monday" "lunch" (m.monday.bind DayMenu.lunch) ++
  slotEntry "monday" "dinner" (m.monday.bind DayMenu.dinner) ++
  slotEntry "tuesday" "breakfast" (m.tuesday.bind DayMenu.breakfast) ++
  slotEntry "tuesday" "lunch" (m.tuesday.bind DayMenu.lunch) ++
  slotEntry "tuesday" "dinner" (m.tuesday.bind DayMenu.dinner) ++
  slotEntry "wednesday" "breakfast" (m.wednesday.bind DayMenu.breakfast) ++
  slotEntry "wednesday" "lunch" (m.wednesday.bind DayMenu.lunch) ++
  slotEntry "wednesday" "dinner" (m.wednesday.bind DayMenu.dinner) ++
  slotEntry "thursday" "breakfast" (m.thursday.bind DayMenu.breakfast) ++
  slotEntry "thursday" "lunch" (m.thursday.bind DayMenu.lunch) ++
  slotEntry "thursday" "dinner" (m.thursday.bind DayMenu.dinner) ++
  slotEntry "friday" "breakfast" (m.friday.bind DayMenu.breakfast) ++
  slotEntry "friday" "lunch" (m.friday.bind DayMenu.lunch) ++
  slotEntry "friday" "dinner" (m.friday.bind DayMenu.dinner) ++
  slotEntry "saturday" "breakfast" (m.saturday.bind DayMenu.breakfast) ++
  slotEntry "saturday" "lunch" (m.saturday.bind DayMenu.lunch) ++
  slotEntry "saturday" "dinner" (m.saturday.bind DayMenu.dinner) ++
  slotEntry "sunday" "breakfast" (m.sunday.bind DayMenu.breakfast) ++
  slotEntry "sunday" "lunch" (m.sunday.bind DayMenu.lunch) ++
  slotEntry "sunday" "dinner" (m.sunday.bind DayMenu.dinner)

/-- The menu with every day absent. -/
def emptyMenu : Menu := ⟨none, none, none, none, none, none, none⟩

/-- The menu whose only filled slot is Monday lunch. -/
def onlyMondayLunch (d : Dish) : Menu :=
  ⟨some ⟨none, some d, none⟩, none, none, none, none, none, none⟩

/-- One day's pushes equal the three slots in meal order. -/
theorem mealEntries_eq_slots (day : String) (od : Option DayMenu) :
    mealEntries day od =
      slotEntry day "breakfast" (od.bind DayMenu.breakfast) ++
      slotEntry day "lunch" (od.bind DayMenu.lunch) ++
      slotEntry day "dinner" (od.bind DayMenu.dinner) := by
  cases od with
  | none => rfl
  | some dm =>
    rcases dm with ⟨b, l, d⟩
    cases b <;> cases l <;> cases d <;> rfl

/-- C8: `processMenuData` iterates exactly the seven weekday keys in
Monday–Sunday order and, within a day, breakfast–lunch–dinner order,
keeping only present slots (`flattenSpec`); a menu with only Monday lunch
set yields exactly that one entry, and the empty menu yields the empty
list. -/
theorem processMenuData_ordered_flatten :
    (∀ m : Menu, processMenuData m = flattenSpec m) ∧
    (∀ d : Dish, processMenuData (onlyMondayLunch d) = [⟨"monday", "lunch", d⟩]) ∧
    processMenuData emptyMenu = [] := by
  refine ⟨?_, fun d => rfl, rfl⟩
  intro m
  rcases m with ⟨mo, tu, we, th, fr, sa, su⟩
  simp [processMenuData, dayList, flattenSpec, mealEntries_eq_slots, List.append_assoc]

/-- The spec-side dish predicate for C9: the term occurs as a
case-insensitive substring of the name, the description, or at least one
ingredient. -/
def matchesSpec (term : String) (e : MenuEntry) : Bool :=
  containsSub (lowerList e.dish.name.toList) (lowerList term.toList) ||
  containsSub (lowerList e.dish.description.toList) (lowerList term.toList) ||
  e.dish.ingredients.any fun i => containsSub (lowerList i.toList) (lowerList term.toList)

/-- A flattened entry whose dish has the ingredient "wheat flour". -/
def wheatEntry : MenuEntry :=
  ⟨"monday", "lunch", ⟨"Bread", "Fresh loaf", ["wheat flour", "water"], ["bake"]⟩⟩

/-- C9: the search handler returns exactly the dishes matching the term
case-insensitively on name, description or some ingredient, preserving the
original relative order (sublist of the input); "wheat" and "WHEAT" both
match a dish with ingredient "wheat flour", and a non-matching term
yields the empty list. -/
theorem search_ci_substring_filter :
    (∀ (term : String) (dishes : List MenuEntry),
        (searchDishes term dishes).Sublist dishes ∧
        ∀ e, e ∈ searchDishes term dishes ↔ e ∈ dishes ∧ matchesSpec term e = true) ∧
    searchDishes "wheat" [wheatEntry] = [wheatEntry] ∧
    searchDishes "WHEAT" [wheatEntry] = [wheatEntry] ∧
    searchDishes "beef" [wheatEntry] = [] := by
  refine ⟨fun term dishes => ⟨List.filter_sublist _, fun e => ?_⟩, by decide, by decide, by decide⟩
  rw [searchDishes, List.mem_filter]
  exact Iff.rfl

/-- A rejected response whose JSON body carries a `detail` field that is
present but empty. -/
def emptyDetailResp : HttpResponse := ⟨false, 400, .obj [("detail", .str "")]⟩

/-- C6 counterexample: with a present-but-empty `detail` field the raised
message is the fallback "Signup failed", not the backend-provided detail
value "" — JavaScript's `||` treats the empty string as absent, so the
claim's "detail field when present" reading fails. -/
theorem signup_empty_detail_uses_fallback :
    signup emptyDetailResp = .error (.error "Signup failed") ∧
    jsonLookup [("detail", Json.str "")] "detail" = some (Json.str "") ∧
    "Signup failed" ≠ "" :=
  ⟨rfl, rfl, by decide⟩

/-- When the body's `detail` property reads as a truthy value, the
failure message is that value, stringified. -/
theorem failureMessage_truthy (body : Json) (fb : String) (v : Json)
    (h : jsGetField body "detail" = .ok (some v)) (ht : jsTruthy v = true) :
    failureMessage body fb = .error (jsToString v) := by
  simp [failureMessage, h, ht]

/-- When the body's `detail` property reads as `undefined` (absent key or
non-object body) or as a falsy value (empty string, `false`, `0`,
JSON `null`), the failure message is the fallback. -/
theorem failureMessage_falsy (body : Json) (fb : String) (od : Option Json)
    (h : jsGetField body "detail" = .ok od)
    (hod : od = none ∨ ∃ v, od = some v ∧ jsTruthy v = false) :
    failureMessage body fb = .error fb := by
  rcases hod with rfl | ⟨v, rfl, hv⟩
  · simp [failureMessage, h]
  · simp [failureMessage, h, hv]

/-- When the body is JSON `null`, reading `detail` itself throws. -/
theorem failureMessage_nullBody (body : Json) (fb : String)
    (h : jsGetField body "detail" = .error ()) :
    failureMessage body fb = .typeError := by
  simp [failureMessage, h]

/-- C6 (amended): on every non-success response, `signup`, `login` and
`googleAuth` raise an error whose message is the `detail` property's
value when it reads as truthy (a non-empty detail string verbatim), and
otherwise — `detail` absent, a non-object body, or a falsy `detail` such
as the empty string, which JavaScript's `||` also maps to the fallback —
the operation-specific fallback; a JSON `null` body makes the `detail`
read itself throw a `TypeError`.  `getCurrentUser` on a 401 clears the
credential and returns absent without raising, and on any other non-OK
status raises "Failed to get user info". -/
theorem gateway_failure_contract :
    (∀ (resp : HttpResponse) (v : Json), resp.ok = false →
      jsGetField resp.body "detail" = .ok (some v) → jsTruthy v = true →
      signup resp = .error (.error (jsToString v)) ∧
      login resp = .error (.error (jsToString v)) ∧
      googleAuth resp = .error (.error (jsToString v))) ∧
    (∀ (resp : HttpResponse) (od : Option Json), resp.ok = false →
      jsGetField resp.body "detail" = .ok od →
      (od = none ∨ ∃ v, od = some v ∧ jsTruthy v = false) →
      signup resp = .error (.error "Signup failed") ∧
      login resp = .error (.error "Login failed") ∧
      googleAuth resp = .error (.error "Google authentication failed")) ∧
    (∀ resp : HttpResponse, resp.ok = false →
      jsGetField resp.body "detail" = .error () →
      signup resp = .error .typeError ∧ login resp = .error .typeError ∧
      googleAuth resp = .error .typeError) ∧
    (∀ (token : String) (resp : HttpResponse), token ≠ "" → resp.ok = false →
      (resp.status = 401 → getCurrentUser (some token) resp = .ok (none, none)) ∧
      (resp.status ≠ 401 →
        getCurrentUser (some token) resp = .error (.error "Failed to get user info"))) := by
  refine ⟨?_, ?_, ?_, ?_⟩
  · intro resp v hok hget ht
    rw [signup, login, googleAuth, hok]
    simp [failureMessage_truthy resp.body _ v hget ht]
  · intro resp od hok hget hod
    rw [signup, login, googleAuth, hok]
    simp [failureMessage_falsy resp.body _ od hget hod]
  · intro resp hok hget
    rw [signup, login, googleAuth, hok]
    simp [failureMessage_nullBody resp.body _ hget]
  · intro token resp htok hok
    constructor
    · intro h401
      simp [getCurrentUser, htok, hok, h401]
    · intro h401
      simp [getCurrentUser, htok, hok, h401]

/-- C6 witness: the amended contract applied concretely — a 400 with
`detail = "bad email"` for all three operations; the counterexample's
empty-string `detail` for `login` and `googleAuth` (and `signup`); a 400
with no `detail` member; a 400 with a non-object (string) body; a 400
with a JSON `null` body; and `getCurrentUser` at a 401 and a 500. -/
theorem gateway_failure_contract_witness :
    (signup ⟨false, 400, .obj [("detail", .str "bad email")]⟩ = .error (.error "bad email") ∧
     login ⟨false, 400, .obj [("detail", .str "bad email")]⟩ = .error (.error "bad email") ∧
     googleAuth ⟨false, 400, .obj [("detail", .str "bad email")]⟩ = .error (.error "bad email")) ∧
    (signup ⟨false, 400, .obj [("detail", .str "")]⟩ = .error (.error "Signup failed") ∧
     login ⟨false, 400, .obj [("detail", .str "")]⟩ = .error (.error "Login failed") ∧
     googleAuth ⟨false, 400, .obj [("detail", .str "")]⟩ =
       .error (.error "Google authentication failed")) ∧
    login ⟨false, 400, .obj []⟩ = .error (.error "Login failed") ∧
    googleAuth ⟨false, 400, .str "oops"⟩ = .error (.error "Google authentication failed") ∧
    signup ⟨false, 400, .null⟩ = .error .typeError ∧
    getCurrentUser (some "tok") ⟨false, 401, .null⟩ = .ok (none, none) ∧
    getCurrentUser (some "tok") ⟨false, 500, .null⟩ = .error (.error "Failed to get user info") :=
  ⟨gateway_failure_contract.1 ⟨false, 400, .obj [("detail", .str "bad email")]⟩
      (.str "bad email") rfl rfl (by decide),
   gateway_failure_contract.2.1 ⟨false, 400, .obj [("detail", .str "")]⟩
      (some (.str "")) rfl rfl (Or.inr ⟨.str "", rfl, by decide⟩),
   (gateway_failure_contract.2.1 ⟨false, 400, .obj []⟩ none rfl rfl (Or.inl rfl)).2.1,
   (gateway_failure_contract.2.1 ⟨false, 400, .str "oops"⟩ none rfl rfl (Or.inl rfl)).2.2,
   (gateway_failure_contract.2.2.1 ⟨false, 400, .null⟩ rfl rfl).1,
   (gateway_failure_contract.2.2.2 "tok" _ (by decide) rfl).1 rfl,
   (gateway_failure_contract.2.2.2 "tok" _ (by decide) rfl).2 (by decide)⟩

/-- `finalizeProfile` only appends to the transcript and never touches
the session id. -/
theorem finalizeProfile_appends (st : ChatState) (fin : NetOutcome) :
    (∃ xs, (finalizeProfile st fin).transcript = st.transcript ++ xs) ∧
    (finalizeProfile st fin).sessionId = st.sessionId := by
  cases fin with
  | netError =>
    exact ⟨⟨[("Creating your profile...", "assistant"),
             ("Something went wrong creating your profile.", "assistant")],
           by simp [finalizeProfile, addMessage]⟩, by simp [finalizeProfile, addMessage]⟩
  | ok body =>
    rw [finalizeProfile]
    cases jsGetField body "success" with
    | error e =>
      exact ⟨⟨[("Creating your profile...", "assistant"),
               ("Something went wrong creating your profile.", "assistant")],
             by simp [addMessage]⟩, by simp [addMessage]⟩
    | ok sv =>
      by_cases hs : (match sv with | some v => jsTruthy v | none => false) = true
      · refine ⟨⟨[("Creating your profile...", "assistant")], ?_⟩, ?_⟩ <;>
          simp [hs, addMessage]
      · refine ⟨⟨[("Creating your profile...", "assistant")], ?_⟩, ?_⟩ <;>
          simp [hs, addMessage]

/-- The inline error text of the send-message catch handler. -/
def sendErrorText : String := "Error: Could not send message. Please try again."

/-- C7: `handleSendMessage` is a no-op when the trimmed input is empty or
no session id is set; otherwise the user's message is appended to the
transcript first, whatever the network outcome, with the session id left
unchanged; and on network failure the result is exactly the original
state plus the user message and the inline error bubble, still holding
the same session id (Active, so a retry is possible). -/
theorem sendMessage_contract :
    (∀ (st : ChatState) (net fin : NetOutcome),
      (jsTrim st.inputValue = "" ∨ jsFalsyStr st.sessionId = true) →
      handleSendMessage st net fin = st) ∧
    (∀ (st : ChatState) (net fin : NetOutcome),
      jsTrim st.inputValue ≠ "" → jsFalsyStr st.sessionId = false →
      (∃ rest, (handleSendMessage st net fin).transcript =
        st.transcript ++ (jsTrim st.inputValue, "user") :: rest) ∧
      (handleSendMessage st net fin).sessionId = st.sessionId) ∧
    (∀ (st : ChatState) (fin : NetOutcome),
      jsTrim st.inputValue ≠ "" → jsFalsyStr st.sessionId = false →
      handleSendMessage st .netError fin =
        { st with
          transcript := st.transcript ++ [(jsTrim st.inputValue, "user"), (sendErrorText, "assistant")]
          inputValue := ""
          loading := false }) := by
  refine ⟨?_, ?_, ?_⟩
  · intro st net fin h
    have h' : jsTrim st.inputValue = "" ∨ jsFalsyStr st.sessionId := by
      rcases h with h | h
      · exact Or.inl h
      · exact Or.inr h
    simp [handleSendMessage, if_pos h']
  · intro st net fin hne hsid
    have h' : ¬(jsTrim st.inputValue = "" ∨ jsFalsyStr st.sessionId) := by
      simp [hne, hsid]
    rw [handleSendMessage]
    simp only [if_neg h']
    cases net with
    | netError =>
      exact ⟨⟨[(sendErrorText, "assistant")], by simp [addMessage, sendErrorText]⟩,
        by simp [addMessage]⟩
    | ok body =>
      rcases hm : jsGetField body "message" with e | mv <;>
        rcases hc : jsGetField body "is_complete" with e2 | cv <;>
          simp only [hm, hc, addMessage]
      · exact ⟨⟨[(sendErrorText, "assistant")], by simp [sendErrorText, List.append_assoc]⟩, trivial⟩
      · exact ⟨⟨[(sendErrorText, "assistant")], by simp [sendErrorText, List.append_assoc]⟩, trivial⟩
      · exact ⟨⟨[(sendErrorText, "assistant")], by simp [sendErrorText, List.append_assoc]⟩, trivial⟩
      · split
        · obtain ⟨⟨xs, hxs⟩, hsid2⟩ := finalizeProfile_appends _ fin
          refine ⟨⟨(renderMsg mv, "assistant") :: xs, ?_⟩, ?_⟩
          · rw [hxs]
            simp [List.append_assoc]
          · rw [hsid2]
        · exact ⟨⟨[(renderMsg mv, "assistant")], by simp [List.append_assoc]⟩, rfl⟩
  · intro st fin hne hsid
    have h' : ¬(jsTrim st.inputValue = "" ∨ jsFalsyStr st.sessionId) := by
      simp [hne, hsid]
    rcases st with ⟨sid, tr, iv, ld, tok, prof, shown⟩
    simp [handleSendMessage, if_neg h', addMessage, sendErrorText]

/-- A concrete chat state with an active session and the pending input
" hi ". -/
def chatSt : ChatState :=
  ⟨some "s1", [("welcome", "assistant")], " hi ", false, some "t", none, false⟩

/-- C7 witness: the contract applied to `chatSt` — the no-op clause at an
empty input, and the network-failure clause at " hi ". -/
theorem sendMessage_contract_witness :
    handleSendMessage { chatSt with inputValue := "  " } .netError .netError =
      { chatSt with inputValue := "  " } ∧
    handleSendMessage chatSt .netError .netError =
      { chatSt with
        transcript := chatSt.transcript ++ [("hi", "user"), (sendErrorText, "assistant")]
        inputValue := ""
        loading := false } :=
  ⟨sendMessage_contract.1 _ .netError .netError (Or.inl (by decide)),
   by
    have h := sendMessage_contract.2.2 chatSt .netError (by decide) (by decide)
    simpa using h⟩

/-- A three-segment token whose payload is the JSON object with the
string-valued claim `exp = "99999999999"` (base64url of that object). -/
def stringExpToken : String := "h.eyJleHAiOiI5OTk5OTk5OTk5OSJ9.s"

/-- C10 counterexample: this token splits into three segments and its
middle segment decodes to a JSON object whose `exp` claim is a string —
so the object lacks a *numeric* `exp` claim — yet `isAuthenticated` is
`true` at `Date.now()` = 1760000000000 ms, because `payload.exp * 1000`
coerces the numeric string to a number. -/
theorem isAuthenticated_string_exp_counterexample :
    (splitOnDot stringExpToken.toList).length = 3 ∧
    parseJwt stringExpToken = some (Json.obj [("exp", Json.str "99999999999")]) ∧
    (∀ n : Int, jsonLookup [("exp", Json.str "99999999999")] "exp" ≠ some (Json.num n)) ∧
    isAuthenticated (some stringExpToken) 1760000000000 = true :=
  ⟨rfl, rfl, fun n h => by simp [jsonLookup] at h, rfl⟩

/-- C10 (amended): a decodable payload whose `exp` claim is absent or
does not coerce to a number under JavaScript `ToNumber` (so the
multiplication yields NaN, including the thrown-access case of a `null`
payload) is never authenticated; an `exp` that does coerce — e.g. a
numeric string — is honoured as the expiry. -/
theorem no_coercible_exp_not_authenticated (t : String) (now : Int) (payload : Json)
    (hp : parseJwt t = some payload) (he : expValue payload = none) :
    isAuthenticated (some t) now = false := by
  by_cases ht : t = "" <;> simp [isAuthenticated, ht, hp, he]

/-- C10 witness: the amended theorem applied to the token whose payload
is the empty object (no `exp` at all). -/
theorem no_coercible_exp_witness :
    isAuthenticated (some "h.e30.s") 1760000000000 = false :=
  no_coercible_exp_not_authenticated "h.e30.s" 1760000000000 (Json.obj []) rfl rfl

/-- A token with only two dot-separated segments whose second segment is
the base64url encoding of the object `exp = 99999999999`. -/
def twoSegmentToken : String := "x.eyJleHAiOjk5OTk5OTk5OTk5fQ"

/-- C1 counterexample: a token that is *not* a three-segment token (it
has two segments) still authenticates, because `parseJwt` only reads
`split('.')[1]` and never checks the segment count; so "authenticated iff
structurally decodable as a three-segment token with future expiry" fails
in the only-if direction. -/
theorem isAuthenticated_two_segment_counterexample :
    isAuthenticated (some twoSegmentToken) 1760000000000 = true ∧
    (splitOnDot twoSegmentToken.toList).length = 2 ∧
    parseJwt twoSegmentToken = some (Json.obj [("exp", Json.num 99999999999)]) :=
  ⟨rfl, rfl, rfl⟩

/-- C1 (amended): `isAuthenticated` is `true` iff a non-empty credential
is stored, splitting it on dots yields a second segment that decodes
(base64, UTF-8, JSON), and the payload's `exp` claim coerces to a number
`e` with `now < e * 1000`; the total number of segments is not otherwise
constrained, and a decode failure or empty/absent credential yields
`false` (fails closed). -/
theorem isAuthenticated_iff (store : Option String) (now : Int) :
    isAuthenticated store now = true ↔
      ∃ t payload e, store = some t ∧ t ≠ "" ∧ parseJwt t = some payload ∧
        expValue payload = some e ∧ now < e * 1000 := by
  cases store with
  | none => simp [isAuthenticated]
  | some t =>
    by_cases ht : t = ""
    · simp [isAuthenticated, ht]
    · cases hp : parseJwt t with
      | none => simp [isAuthenticated, ht, hp]
      | some payload =>
        cases he : expValue payload with
        | none => simp [isAuthenticated, ht, hp, he]
        | some e => simp [isAuthenticated, ht, hp, he]

/-! ## Round-trip machinery for C4 -/

/-- A `Char`'s scalar value is below the surrogate range or above it and
below `0x110000`. -/
theorem char_valid_nat (c : Char) : c.toNat < 0xD800 ∨ (0xE000 ≤ c.toNat ∧ c.toNat < 0x110000) := by
  have hv : c.toNat < 0xd800 ∨ (0xdfff < c.toNat ∧ c.toNat < 0x110000) := c.valid
  omega

/-- Decoding one step from an encoded character recovers its scalar
value. -/
theorem utf8Step_encodeChar (c : Char) (rest : List Nat) :
    utf8Step (utf8EncodeChar c ++ rest) = some (c.toNat, rest) := by
  have hv := char_valid_nat c
  by_cases h1 : c.toNat < 0x80
  · have he : utf8EncodeChar c = [c.toNat] := by
      simp only [utf8EncodeChar]
      rw [if_pos h1]
    rw [he, List.singleton_append, utf8Step, if_pos h1]
  · by_cases h2 : c.toNat < 0x800
    · have he : utf8EncodeChar c = [0xC0 + c.toNat / 64, 0x80 + c.toNat % 64] := by
        simp only [utf8EncodeChar]
        rw [if_neg h1, if_pos h2]
      rw [he, List.cons_append, List.singleton_append, utf8Step]
      rw [if_neg (by omega),
        if_pos (show 0xC2 ≤ 0xC0 + c.toNat / 64 ∧ 0xC0 + c.toNat / 64 ≤ 0xDF by omega),
        utf8Cont1, if_pos (show isCont (0x80 + c.toNat % 64) = true by
          simp only [isCont, Bool.and_eq_true, decide_eq_true_eq]; omega)]
      rw [show (0xC0 + c.toNat / 64 - 0xC0) * 64 + (0x80 + c.toNat % 64 - 0x80) = c.toNat by omega]
    · by_cases h3 : c.toNat < 0x10000
      · have he : utf8EncodeChar c =
            [0xE0 + c.toNat / 4096, 0x80 + c.toNat / 64 % 64, 0x80 + c.toNat % 64] := by
          simp only [utf8EncodeChar]
          rw [if_neg h1, if_neg h2, if_pos h3]
        rw [he, List.cons_append, List.cons_append, List.singleton_append, utf8Step]
        rw [if_neg (by omega), if_neg (by omega),
          if_pos (show 0xE0 ≤ 0xE0 + c.toNat / 4096 ∧ 0xE0 + c.toNat / 4096 ≤ 0xEF by omega),
          utf8Cont2]
        rw [if_pos (show isCont (0x80 + c.toNat / 64 % 64) = true ∧
            isCont (0x80 + c.toNat % 64) = true ∧
            (0xE0 + c.toNat / 4096 = 0xE0 → 0xA0 ≤ 0x80 + c.toNat / 64 % 64) ∧
            (0xE0 + c.toNat / 4096 = 0xED → 0x80 + c.toNat / 64 % 64 ≤ 0x9F) by
          refine ⟨by simp only [isCont, Bool.and_eq_true, decide_eq_true_eq]; omega,
            by simp only [isCont, Bool.and_eq_true, decide_eq_true_eq]; omega, ?_, ?_⟩ <;>
            (intro hb; omega))]
        rw [show (0xE0 + c.toNat / 4096 - 0xE0) * 4096 + (0x80 + c.toNat / 64 % 64 - 0x80) * 64 +
            (0x80 + c.toNat % 64 - 0x80) = c.toNat by omega]
      · have he : utf8EncodeChar c =
            [0xF0 + c.toNat / 262144, 0x80 + c.toNat / 4096 % 64, 0x80 + c.toNat / 64 % 64,
             0x80 + c.toNat % 64] := by
          simp only [utf8EncodeChar]
          rw [if_neg h1, if_neg h2, if_neg h3]
        rw [he, List.cons_append, List.cons_append, List.cons_append, List.singleton_append,
          utf8Step]
        rw [if_neg (by omega), if_neg (by omega), if_neg (by omega),
          if_pos (show 0xF0 ≤ 0xF0 + c.toNat / 262144 ∧ 0xF0 + c.toNat / 262144 ≤ 0xF4 by omega),
          utf8Cont3]
        rw [if_pos (show isCont (0x80 + c.toNat / 4096 % 64) = true ∧
            isCont (0x80 + c.toNat / 64 % 64) = true ∧
            isCont (0x80 + c.toNat % 64) = true ∧
            (0xF0 + c.toNat / 262144 = 0xF0 → 0x90 ≤ 0x80 + c.toNat / 4096 % 64) ∧
            (0xF0 + c.toNat / 262144 = 0xF4 → 0x80 + c.toNat / 4096 % 64 ≤ 0x8F) by
          refine ⟨by simp only [isCont, Bool.and_eq_true, decide_eq_true_eq]; omega,
            by simp only [isCont, Bool.and_eq_true, decide_eq_true_eq]; omega,
            by simp only [isCont, Bool.and_eq_true, decide_eq_true_eq]; omega, ?_, ?_⟩ <;>
            (intro hb; omega))]
        rw [show (0xF0 + c.toNat / 262144 - 0xF0) * 262144 +
            (0x80 + c.toNat / 4096 % 64 - 0x80) * 4096 +
            (0x80 + c.toNat / 64 % 64 - 0x80) * 64 + (0x80 + c.toNat % 64 - 0x80) = c.toNat by
            omega]

/-- Each encoded character occupies at least one byte: the encoding of a
list is at least as long as the list. -/
theorem utf8Encode_length_ge (cs : List Char) : cs.length ≤ (utf8Encode cs).length := by
  induction cs with
  | nil => simp [utf8Encode]
  | cons c cs ih =>
    have h1 : 1 ≤ (utf8EncodeChar c).length := by
      simp only [utf8EncodeChar]
      split_ifs <;> simp
    simp only [utf8Encode, List.length_append, List.length_cons]
    omega

/-- With per-character fuel to spare, decoding an encoded prefix peels it
off character by character. -/
theorem utf8DecodeF_encode (cs : List Char) (f : Nat) (tail : List Nat) :
    utf8DecodeF (cs.length + f) (utf8Encode cs ++ tail) =
      (utf8DecodeF f tail).map fun ds => cs ++ ds := by
  induction cs generalizing tail with
  | nil =>
    simp only [utf8Encode, List.nil_append, List.length_nil, Nat.zero_add]
    cases h : utf8DecodeF f tail <;> simp
  | cons c cs ih =>
    have hstep := utf8Step_encodeChar c (utf8Encode cs ++ tail)
    have hlen : (c :: cs).length + f = (cs.length + f) + 1 := by
      simp [List.length_cons]
      omega
    rw [hlen]
    have hne : utf8EncodeChar c ++ (utf8Encode cs ++ tail) ≠ [] := by
      intro hcon
      have h1 : 1 ≤ (utf8EncodeChar c).length := by
        simp only [utf8EncodeChar]
        split_ifs <;> simp
      have h2 := congrArg List.length hcon
      rw [List.length_append] at h2
      simp only [List.length_nil] at h2
      omega
    rw [show utf8Encode (c :: cs) = utf8EncodeChar c ++ utf8Encode cs from rfl,
      List.append_assoc]
    rcases hl : utf8EncodeChar c ++ (utf8Encode cs ++ tail) with _ | ⟨b, bs⟩
    · exact absurd hl hne
    · rw [utf8DecodeF, ← hl, hstep]
      · simp only [ih tail]
        cases h2 : utf8DecodeF f tail <;> simp
      · exact fun hcon => List.noConfusion hcon

/-- UTF-8 round-trip: decoding an encoded character list recovers it. -/
theorem utf8Decode_encode (cs : List Char) : utf8Decode (utf8Encode cs) = some cs := by
  have hge := utf8Encode_length_ge cs
  obtain ⟨k, hk⟩ : ∃ k, (utf8Encode cs).length = cs.length + k :=
    ⟨(utf8Encode cs).length - cs.length, by omega⟩
  rw [utf8Decode, hk]
  have := utf8DecodeF_encode cs k []
  rw [List.append_nil] at this
  rw [this]
  simp [utf8DecodeF]

/-- The sextet stream of the unpadded base64 encoding of a byte list. -/
def sextets : List Nat → List Nat
  | a :: b :: c :: rest =>
    a / 4 :: (a % 4 * 16 + b / 16) :: (b % 16 * 4 + c / 64) :: c % 64 :: sextets rest
  | [a, b] => [a / 4, a % 4 * 16 + b / 16, b % 16 * 4]
  | [a] => [a / 4, a % 4 * 16]
  | [] => []

/-- Facts about one URL-alphabet character and its translation: decoding
the translated character recovers the sextet, and neither character is
whitespace, padding or a dot. -/
theorem urlAlphaFactsFin : ∀ v : Fin 64,
    b64CharValue (urlToStdChar (b64UrlAlphabet.getD v.val 'A')) = some v.val ∧
    isB64Ws (urlToStdChar (b64UrlAlphabet.getD v.val 'A')) = false ∧
    urlToStdChar (b64UrlAlphabet.getD v.val 'A') ≠ '=' ∧
    b64UrlAlphabet.getD v.val 'A' ≠ '.' := by decide

/-- `urlAlphaFactsFin` restated over plain naturals. -/
theorem urlAlphaFacts (v : Nat) (hv : v < 64) :
    b64CharValue (urlToStdChar (b64UrlAlphabet.getD v 'A')) = some v ∧
    isB64Ws (urlToStdChar (b64UrlAlphabet.getD v 'A')) = false ∧
    urlToStdChar (b64UrlAlphabet.getD v 'A') ≠ '=' ∧
    b64UrlAlphabet.getD v 'A' ≠ '.' :=
  urlAlphaFactsFin ⟨v, hv⟩

/-- Every character the encoder emits is an URL-alphabet character at a
sextet index. -/
theorem b64UrlEncode_mem : ∀ (bs : List Nat), (∀ b ∈ bs, b < 256) →
    ∀ c ∈ b64UrlEncode bs, ∃ v : Nat, v < 64 ∧ c = b64UrlAlphabet.getD v 'A'
  | [], _, c, hc => by simp [b64UrlEncode] at hc
  | [a], h, c, hc => by
    have ha : a < 256 := h a (by simp)
    simp only [b64UrlEncode, List.mem_cons, List.not_mem_nil, or_false] at hc
    rcases hc with rfl | rfl
    · exact ⟨a / 4, by omega, rfl⟩
    · exact ⟨a % 4 * 16, by omega, rfl⟩
  | [a, b], h, c, hc => by
    have ha : a < 256 := h a (by simp)
    have hb : b < 256 := h b (by simp)
    simp only [b64UrlEncode, List.mem_cons, List.not_mem_nil, or_false] at hc
    rcases hc with rfl | rfl | rfl
    · exact ⟨a / 4, by omega, rfl⟩
    · exact ⟨a % 4 * 16 + b / 16, by omega, rfl⟩
    · exact ⟨b % 16 * 4, by omega, rfl⟩
  | a :: b :: d :: rest, h, c, hc => by
    have ha : a < 256 := h a (by simp)
    have hb : b < 256 := h b (by simp)
    have hd : d < 256 := h d (by simp)
    simp only [b64UrlEncode, List.mem_cons] at hc
    rcases hc with rfl | rfl | rfl | rfl | hc
    · exact ⟨a / 4, by omega, rfl⟩
    · exact ⟨a % 4 * 16 + b / 16, by omega, rfl⟩
    · exact ⟨b % 16 * 4 + d / 64, by omega, rfl⟩
    · exact ⟨d % 64, by omega, rfl⟩
    · exact b64UrlEncode_mem rest (fun x hx => h x (by simp [hx])) c hc

/-- Decoding the translated encoder output yields the sextet stream. -/
theorem sextetsOf_urlToStd_encode : ∀ (bs : List Nat), (∀ b ∈ bs, b < 256) →
    sextetsOf (urlToStd (b64UrlEncode bs)) = some (sextets bs)
  | [], _ => by simp [b64UrlEncode, urlToStd, sextetsOf, sextets]
  | [a], h => by
    have ha : a < 256 := h a (by simp)
    have f1 := (urlAlphaFacts (a / 4) (by omega)).1
    have f2 := (urlAlphaFacts (a % 4 * 16) (by omega)).1
    simp only [b64UrlEncode, urlToStd, List.map_cons, List.map_nil]
    simp only [sextetsOf, f1, f2, sextets]
  | [a, b], h => by
    have ha : a < 256 := h a (by simp)
    have hb : b < 256 := h b (by simp)
    have f1 := (urlAlphaFacts (a / 4) (by omega)).1
    have f2 := (urlAlphaFacts (a % 4 * 16 + b / 16) (by omega)).1
    have f3 := (urlAlphaFacts (b % 16 * 4) (by omega)).1
    simp only [b64UrlEncode, urlToStd, List.map_cons, List.map_nil]
    simp only [sextetsOf, f1, f2, f3, sextets]
  | a :: b :: d :: rest, h => by
    have ha : a < 256 := h a (by simp)
    have hb : b < 256 := h b (by simp)
    have hd : d < 256 := h d (by simp)
    have f1 := (urlAlphaFacts (a / 4) (by omega)).1
    have f2 := (urlAlphaFacts (a % 4 * 16 + b / 16) (by omega)).1
    have f3 := (urlAlphaFacts (b % 16 * 4 + d / 64) (by omega)).1
    have f4 := (urlAlphaFacts (d % 64) (by omega)).1
    have ih := sextetsOf_urlToStd_encode rest (fun x hx => h x (by simp [hx]))
    simp only [b64UrlEncode, urlToStd, List.map_cons, List.map_append] at ih ⊢
    simp only [sextetsOf, f1, f2, f3, f4, sextets, ih]

/-- Repacking the sextet stream recovers the original bytes. -/
theorem sextetsToBytes_sextets : ∀ (bs : List Nat), (∀ b ∈ bs, b < 256) →
    sextetsToBytes (sextets bs) = bs
  | [], _ => rfl
  | [a], h => by
    have ha : a < 256 := h a (by simp)
    simp only [sextets, sextetsToBytes]
    congr 1
    omega
  | [a, b], h => by
    have ha : a < 256 := h a (by simp)
    have hb : b < 256 := h b (by simp)
    simp only [sextets, sextetsToBytes]
    congr 1
    · omega
    · congr 1
      omega
  | a :: b :: d :: rest, h => by
    have ha : a < 256 := h a (by simp)
    have hb : b < 256 := h b (by simp)
    have hd : d < 256 := h d (by simp)
    have ih := sextetsToBytes_sextets rest (fun x hx => h x (by simp [hx]))
    simp only [sextets, sextetsToBytes, ih, List.cons.injEq]
    refine ⟨by omega, by omega, by omega, trivial⟩

/-- The encoder's output length is never 1 modulo 4. -/
theorem b64UrlEncode_length : ∀ bs : List Nat, (b64UrlEncode bs).length % 4 ≠ 1
  | [] => by simp [b64UrlEncode]
  | [a] => by simp [b64UrlEncode]
  | [a, b] => by simp [b64UrlEncode]
  | a :: b :: d :: rest => by
    have ih := b64UrlEncode_length rest
    simp only [b64UrlEncode, List.length_cons]
    omega

/-- `stripPad` is the identity on pad-free inputs. -/
theorem stripPad_no_pad (cs : List Char) (h : ∀ c ∈ cs, c ≠ '=') : stripPad cs = cs := by
  unfold stripPad
  rcases hrev : cs.reverse with _ | ⟨c1, r1⟩
  · rfl
  · have hc1 : c1 ∈ cs := by
      rw [← List.mem_reverse, hrev]
      simp
    rcases r1 with _ | ⟨c2, r2⟩
    · change (if c1 = '=' then ([] : List Char) else cs) = cs
      rw [if_neg (h c1 hc1)]
    · change (if c1 = '=' then (if c2 = '=' then r2.reverse else (c2 :: r2).reverse) else cs) = cs
      rw [if_neg (h c1 hc1)]

/-- Forgiving-base64 decode inverts the unpadded URL-safe encoding after
alphabet translation. -/
theorem atob_urlToStd_encode (bs : List Nat) (h : ∀ b ∈ bs, b < 256) :
    atobModel (urlToStd (b64UrlEncode bs)) = some bs := by
  have hmem := b64UrlEncode_mem bs h
  have hfacts : ∀ c ∈ urlToStd (b64UrlEncode bs), isB64Ws c = false ∧ c ≠ '=' := by
    intro c hc
    rw [urlToStd, List.mem_map] at hc
    obtain ⟨c0, hc0, rfl⟩ := hc
    obtain ⟨v, hv, rfl⟩ := hmem c0 hc0
    exact ⟨(urlAlphaFacts v hv).2.1, (urlAlphaFacts v hv).2.2.1⟩
  unfold atobModel
  have hfilter : (urlToStd (b64UrlEncode bs)).filter (fun c => !isB64Ws c) =
      urlToStd (b64UrlEncode bs) := by
    rw [List.filter_eq_self]
    intro c hc
    simp [(hfacts c hc).1]
  simp only [hfilter]
  have hstrip : stripPad (urlToStd (b64UrlEncode bs)) = urlToStd (b64UrlEncode bs) :=
    stripPad_no_pad _ (fun c hc => (hfacts c hc).2)
  rw [hstrip, ite_self]
  have hlen : (urlToStd (b64UrlEncode bs)).length % 4 ≠ 1 := by
    rw [urlToStd, List.length_map]
    exact b64UrlEncode_length bs
  rw [if_neg hlen, sextetsOf_urlToStd_encode bs h]
  simp [sextetsToBytes_sextets bs h]

/-- Lower-case hex digit of a value below 16. -/
def hexDigit (n : Nat) : Char :=
  "0123456789abcdef".toList.getD n '0'

/-- JSON string-literal escaping of one character: quote and backslash
escaped, control characters as `\u00XX`, everything else (including
multi-byte text) verbatim. -/
def escapeChar (c : Char) : List Char :=
  if c = '"' then ['\\', '"']
  else if c = '\\' then ['\\', '\\']
  else if c.toNat < 0x20 then ['\\', 'u', '0', '0', hexDigit (c.toNat / 16), hexDigit (c.toNat % 16)]
  else [c]

/-- JSON string-literal escaping of a character list. -/
def escapeChars : List Char → List Char
  | [] => []
  | c :: cs => escapeChar c ++ escapeChars cs

/-- A JSON string literal for `s`. -/
def printString (s : String) : List Char :=
  '"' :: (escapeChars s.toList ++ ['"'])

/-- A JSON boolean literal. -/
def boolLit : Bool → List Char
  | true => ['t', 'r', 'u', 'e']
  | false => ['f', 'a', 'l', 's', 'e']

/-- The claims object `sub`, `email` and optional `is_onboarded`,
serialized as backends serialize a JWT payload. -/
def printClaims (sub email : String) (ib : Option Bool) : List Char :=
  '\x7b' :: '"' :: 's' :: 'u' :: 'b' :: '"' :: ':' :: (printString sub ++
    (',' :: '"' :: 'e' :: 'm' :: 'a' :: 'i' :: 'l' :: '"' :: ':' :: (printString email ++
      (match ib with
       | some b => ',' :: '"' :: 'i' :: 's' :: '_' :: 'o' :: 'n' :: 'b' :: 'o' :: 'a' :: 'r' ::
           'd' :: 'e' :: 'd' :: '"' :: ':' :: (boolLit b ++ ['\x7d'])
       | none => ['\x7d']))))

/-- The JSON value `JSON.parse` yields for the printed claims object. -/
def claimsJson (sub email : String) (ib : Option Bool) : Json :=
  .obj (("sub", .str sub) :: ("email", .str email) ::
    (match ib with | some b => [("is_onboarded", .bool b)] | none => []))

/-- `hexVal` inverts `hexDigit` on the sixteen digit values. -/
theorem hexVal_hexDigitFin : ∀ n : Fin 16, hexVal (hexDigit n.val) = some n.val := by decide

/-- `hexVal_hexDigitFin` over plain naturals. -/
theorem hexVal_hexDigit (n : Nat) (hn : n < 16) : hexVal (hexDigit n) = some n :=
  hexVal_hexDigitFin ⟨n, hn⟩

/-- Scanning an escaped character recovers it. -/
theorem strStep_escapeChar (c : Char) (rest : List Char) :
    strStep (escapeChar c ++ rest) = .chr c rest := by
  by_cases h1 : c = '"'
  · subst h1
    simp only [escapeChar, if_pos rfl]
    simp [strStep, strStepEsc, escSimple, strStepEsc2]
  · by_cases h2 : c = '\\'
    · subst h2
      rw [escapeChar, if_neg (by decide), if_pos rfl]
      simp [strStep, strStepEsc, escSimple, strStepEsc2]
    · by_cases h3 : c.toNat < 0x20
      · rw [escapeChar, if_neg h1, if_neg h2, if_pos h3]
        have hd1 := hexVal_hexDigit (c.toNat / 16) (by omega)
        have hd2 := hexVal_hexDigit (c.toNat % 16) (by omega)
        simp only [List.cons_append, List.nil_append]
        have h0 : hexVal '0' = some 0 := by decide
        have hh : hex4 '0' '0' (hexDigit (c.toNat / 16)) (hexDigit (c.toNat % 16)) =
            some c.toNat := by
          rw [hex4, h0, hd1, hd2]
          show some (0 * 4096 + 0 * 256 + c.toNat / 16 * 16 + c.toNat % 16) = some c.toNat
          congr 1
          omega
        rw [strStep]
        rw [if_neg (by decide), if_pos rfl, strStepEsc, if_pos rfl, strStepU, hh, strStepHex,
          if_neg (by omega), if_neg (by omega), Char.ofNat_toNat]
      · rw [escapeChar, if_neg h1, if_neg h2, if_neg h3, List.singleton_append, strStep,
          if_neg h1, if_neg h2, if_neg h3]

/-- With per-character fuel, scanning the escaped content followed by the
closing quote yields the content. -/
theorem parseStringF_escape (s : List Char) (f : Nat) (rest : List Char) :
    parseStringF (s.length + (f + 1)) (escapeChars s ++ '"' :: rest) = some (s, rest) := by
  induction s with
  | nil =>
    simp only [escapeChars, List.nil_append, List.length_nil, Nat.zero_add]
    rw [parseStringF]
    simp [strStep]
  | cons c cs ih =>
    rw [show (c :: cs).length + (f + 1) = (cs.length + (f + 1)) + 1 by simp; omega]
    rw [parseStringF]
    rw [show escapeChars (c :: cs) ++ '"' :: rest =
      escapeChar c ++ (escapeChars cs ++ '"' :: rest) by simp [escapeChars, List.append_assoc]]
    rw [strStep_escapeChar]
    simp [ih]

/-- Escaping never shortens a string. -/
theorem escapeChars_length_ge (s : List Char) : s.length ≤ (escapeChars s).length := by
  induction s with
  | nil => simp [escapeChars]
  | cons c cs ih =>
    have h1 : 1 ≤ (escapeChar c).length := by
      rw [escapeChar]
      split_ifs <;> simp
    simp only [escapeChars, List.length_append, List.length_cons]
    omega

/-- The string-literal body parser inverts escaping. -/
theorem parseStringBody_escape (s : List Char) (rest : List Char) :
    parseStringBody (escapeChars s ++ '"' :: rest) = some (s, rest) := by
  rw [parseStringBody]
  obtain ⟨k, hk⟩ : ∃ k, (escapeChars s).length = s.length + k :=
    ⟨(escapeChars s).length - s.length, by have := escapeChars_length_ge s; omega⟩
  rw [show (escapeChars s ++ '"' :: rest).length + 1 = s.length + ((k + rest.length + 1) + 1) by
    simp [List.length_append, hk]; omega]
  exact parseStringF_escape s (k + rest.length + 1) rest

/-- A printed string literal parses as the string value. -/
theorem parseValue_string (f : Nat) (s : String) (rest : List Char) :
    parseValue (f + 1) ('"' :: (escapeChars s.toList ++ '"' :: rest)) =
      some (.str s, rest) := by
  simp [parseValue, parseStringBody_escape]

/-- A printed boolean literal parses as the boolean value. -/
theorem parseValue_bool (f : Nat) (b : Bool) (rest : List Char) :
    parseValue (f + 1) (boolLit b ++ rest) = some (.bool b, rest) := by
  cases b <;> simp [boolLit, parseValue]

/-- The "sub" key literal parses as itself. -/
theorem parseStringBody_key_sub (rest : List Char) :
    parseStringBody ('s' :: 'u' :: 'b' :: '"' :: rest) = some (['s', 'u', 'b'], rest) :=
  parseStringBody_escape ['s', 'u', 'b'] rest

/-- The "email" key literal parses as itself. -/
theorem parseStringBody_key_email (rest : List Char) :
    parseStringBody ('e' :: 'm' :: 'a' :: 'i' :: 'l' :: '"' :: rest) =
      some (['e', 'm', 'a', 'i', 'l'], rest) :=
  parseStringBody_escape ['e', 'm', 'a', 'i', 'l'] rest

/-- The "is_onboarded" key literal parses as itself. -/
theorem parseStringBody_key_ib (rest : List Char) :
    parseStringBody ('i' :: 's' :: '_' :: 'o' :: 'n' :: 'b' :: 'o' :: 'a' :: 'r' :: 'd' ::
        'e' :: 'd' :: '"' :: rest) =
      some (['i', 's', '_', 'o', 'n', 'b', 'o', 'a', 'r', 'd', 'e', 'd'], rest) :=
  parseStringBody_escape ['i', 's', '_', 'o', 'n', 'b', 'o', 'a', 'r', 'd', 'e', 'd'] rest

/-- The printed claims object parses back to its JSON value, with fuel to
spare. -/
theorem parseValue_printClaims (f : Nat) (sub email : String) (ib : Option Bool)
    (rest : List Char) :
    parseValue (f + 1 + 1 + 1 + 1 + 1) (printClaims sub email ib ++ rest) =
      some (claimsJson sub email ib, rest) := by
  have hmk : ∀ s : String, String.mk s.data = s := fun s => rfl
  cases ib with
  | none =>
    simp only [printClaims, printString, List.cons_append, List.append_assoc, List.nil_append]
    simp [parseValue, parseMembers, skipWs, parseStringBody_key_sub, parseStringBody_key_email,
      parseStringBody_escape, claimsJson, hmk]
  | some b =>
    simp only [printClaims, printString, boolLit, List.cons_append, List.append_assoc,
      List.nil_append]
    cases b <;>
      simp [parseValue, parseMembers, skipWs, parseStringBody_key_sub, parseStringBody_key_email,
        parseStringBody_key_ib, parseStringBody_escape, claimsJson, hmk]

/-- `JSON.parse` of the printed claims object. -/
theorem parseJson_printClaims (sub email : String) (ib : Option Bool) :
    parseJson (printClaims sub email ib) = some (claimsJson sub email ib) := by
  rw [parseJson]
  have hsw : skipWs (printClaims sub email ib) = printClaims sub email ib := by
    cases ib <;> simp [printClaims, skipWs]
  rw [hsw]
  obtain ⟨k, hk⟩ : ∃ k, (printClaims sub email ib).length + 1 = k + 1 + 1 + 1 + 1 + 1 := by
    refine ⟨(printClaims sub email ib).length - 4, ?_⟩
    have h7 : 7 ≤ (printClaims sub email ib).length := by
      cases ib <;> simp [printClaims]
    omega
  rw [hk]
  have hp := parseValue_printClaims k sub email ib []
  rw [List.append_nil] at hp
  rw [hp]
  simp [skipWs]

/-- Every byte the UTF-8 encoder emits fits in one byte. -/
theorem utf8Encode_lt (cs : List Char) : ∀ b ∈ utf8Encode cs, b < 256 := by
  induction cs with
  | nil => simp [utf8Encode]
  | cons c cs ih =>
    intro b hb
    have hv := char_valid_nat c
    rw [show utf8Encode (c :: cs) = utf8EncodeChar c ++ utf8Encode cs from rfl,
      List.mem_append] at hb
    rcases hb with hb | hb
    · rw [utf8EncodeChar] at hb
      split_ifs at hb with h1 h2 h3
      · simp at hb
        omega
      · simp at hb
        rcases hb with rfl | rfl <;> omega
      · simp at hb
        rcases hb with rfl | rfl | rfl <;> omega
      · simp at hb
        rcases hb with rfl | rfl | rfl | rfl <;> omega
    · exact ih b hb

/-- Splitting a dot-free middle segment between two one-character
segments yields exactly three segments. -/
theorem splitOnDot_three (mid : List Char) (h : '.' ∉ mid) :
    splitOnDot ('h' :: '.' :: (mid ++ ['.', 's'])) = [['h'], mid, ['s']] := by
  have hmid : splitOnDot (mid ++ ['.', 's']) = [mid, ['s']] := by
    induction mid with
    | nil => simp [splitOnDot]
    | cons c cs ih =>
      have hc : c ≠ '.' := fun hcc => h (by simp [hcc])
      have hcs : '.' ∉ cs := fun hmem => h (by simp [hmem])
      simp [splitOnDot, ih hcs, hc]
  simp [splitOnDot, hmid]

/-- A canonical three-segment token carrying the printed claims object as
its base64url middle segment. -/
def claimsToken (sub email : String) (ib : Option Bool) : String :=
  String.mk ('h' :: '.' ::
    (b64UrlEncode (utf8Encode (printClaims sub email ib)) ++ ['.', 's']))

/-- `parseJwt` decodes the canonical claims token back to the claims
object. -/
theorem parseJwt_claimsToken (sub email : String) (ib : Option Bool) :
    parseJwt (claimsToken sub email ib) = some (claimsJson sub email ib) := by
  have hbytes := utf8Encode_lt (printClaims sub email ib)
  have hnodot : '.' ∉ b64UrlEncode (utf8Encode (printClaims sub email ib)) := by
    intro hmem
    obtain ⟨v, hv, heq⟩ := b64UrlEncode_mem _ hbytes _ hmem
    exact (urlAlphaFacts v hv).2.2.2 heq.symm
  have htl : (claimsToken sub email ib).toList = 'h' :: '.' ::
      (b64UrlEncode (utf8Encode (printClaims sub email ib)) ++ ['.', 's']) := rfl
  rw [parseJwt, htl, splitOnDot_three _ hnodot]
  simp only [atob_urlToStd_encode _ hbytes, utf8Decode_encode]
  exact parseJson_printClaims sub email ib

/-- C4: `getUserFromToken` round-trips claims.  For every claims object
`sub`, `email`, optional `is_onboarded` — the strings arbitrary,
including multi-byte non-ASCII text — storing the token whose base64url
middle segment encodes that object yields the session
`user_id = sub`, `email = email`, `is_onboarded` defaulting to `false`
when the claim is absent; and any token whose decode fails (as well as an
absent or empty credential) yields no session. -/
theorem getUserFromToken_roundtrip :
    (∀ (sub email : String) (ib : Option Bool),
      getUserFromToken (some (claimsToken sub email ib)) =
        some ⟨some (.str sub), some (.str email), .bool (ib.getD false)⟩) ∧
    (∀ t : String, parseJwt t = none → getUserFromToken (some t) = none) ∧
    getUserFromToken none = none ∧ getUserFromToken (some "") = none := by
  refine ⟨?_, ?_, rfl, rfl⟩
  · intro sub email ib
    have hne : claimsToken sub email ib ≠ "" := by
      intro hcon
      have := congrArg String.toList hcon
      simp only [claimsToken] at this
      exact List.noConfusion this
    rw [getUserFromToken, if_neg hne, parseJwt_claimsToken]
    cases ib with
    | none =>
      simp [claimsJson, jsGetField, jsonLookup]
    | some b =>
      cases b <;> simp [claimsJson, jsGetField, jsonLookup, jsTruthy]
  · intro t hp
    rw [getUserFromToken]
    by_cases ht : t = ""
    · rw [if_pos ht]
    · rw [if_neg ht, hp]

/-- C4 witness: the round-trip applied to a concrete claims object
(with a multi-byte character in the email), and the decode-failure clause
applied to the dotless token "x". -/
theorem getUserFromToken_roundtrip_witness :
    getUserFromToken (some (claimsToken "u1" "ø@b.com" (some true))) =
      some ⟨some (.str "u1"), some (.str "ø@b.com"), .bool true⟩ ∧
    getUserFromToken (some "x") = none :=
  ⟨getUserFromToken_roundtrip.1 "u1" "ø@b.com" (some true),
   getUserFromToken_roundtrip.2.1 "x" rfl⟩

end MenuMaster
